import Mathlib

/-!
Verification of the `compdb` repository: a compiler wrapper (`cc.py`) that
logs each compiler invocation as a one-line JSON record, and a database
generator (`gen_compdb.py`) that turns the accumulated log into a
`compile_commands.json` compilation database.

The Python sources are shallowly embedded below:
* strings are Lean `String` (sequences of Unicode scalar values);
* `json.loads` is modelled by an executable recursive-descent parser over
  the JSON grammar accepted by Python's `json` module (including the
  `NaN` / `Infinity` constants); surrogate-pair `\uXXXX` escapes are
  combined, lone surrogates (not representable as Unicode scalars) are out
  of the model;
* `json.dumps` (default options) is modelled for the concrete shapes the
  scripts serialize;
* file and process effects of the wrapper are modelled as an explicit
  effect trace, and the generator's final write as a state transformer on
  the destination file's content.
-/

namespace Compdb

/-! ### Python `str` primitives used by the scripts -/

/-- Model of Python `str.endswith(suffix)`: exact, case-sensitive suffix
match. -/
def pyEndswith (s suffix : String) : Bool :=
  suffix.data.isSuffixOf s.data

/-- Model of Python `str.startswith(pre)`: exact, case-sensitive prefix
match. -/
def pyStartswith (s pre : String) : Bool :=
  pre.data.isPrefixOf s.data

/-- Source `gen_compdb.py` line 16: the recognition test
`a.endswith(\x27.c\x27) or a.endswith(\x27.cc\x27) or a.endswith(\x27.cpp\x27)`. -/
def recognizedSrc (a : String) : Bool :=
  pyEndswith a ".c" || pyEndswith a ".cc" || pyEndswith a ".cpp"

/-- Model of `os.path.join(path, b)` for POSIX paths with two arguments
(`posixpath.join`): an absolute second component discards the first;
otherwise the components are glued, inserting a `/` separator unless the
first component is empty or already ends in `/`. -/
def osPathJoin (path b : String) : String :=
  if pyStartswith b "/" then b
  else if path = "" || pyEndswith path "/" then path ++ b
  else path ++ "/" ++ b

/-! ### JSON values -/

/-- JSON values as produced by Python `json.loads`. Numbers keep their
source lexeme (their numeric value is never consumed by the scripts);
object members keep their source order. -/
inductive Json where
  | null : Json
  | bool (b : Bool) : Json
  | num (lexeme : String) : Json
  | str (s : String) : Json
  | arr (items : List Json) : Json
  | obj (members : List (String × Json)) : Json

/-- Model of Python `dict` lookup for a dict built by `json.loads` from a
member list: a duplicated key keeps the last occurrence. Returns `none`
where Python raises `KeyError`. -/
def dictGet (kvs : List (String × Json)) (k : String) : Option Json :=
  (kvs.reverse.find? (fun kv => kv.fst == k)).map (fun kv => kv.snd)

/-! ### JSON parser (model of `json.loads`)

The parser is fuel-indexed so that every function is structurally
recursive and kernel-computable. The fuel bounds the nesting depth; since
every nesting level consumes at least one character, `length + 1` fuel is
always sufficient. -/

/-- JSON insignificant whitespace: space, tab, linefeed, carriage return. -/
def isJsonWs (c : Char) : Bool :=
  c = ' ' || c = '\t' || c = '\n' || c = '\r'

/-- Skip leading JSON whitespace. -/
def skipWs : List Char → List Char
  | [] => []
  | c :: cs => if isJsonWs c then skipWs cs else c :: cs

/-- Hexadecimal digit value of a character, `none` for non-hex characters. -/
def hexVal (c : Char) : Option Nat :=
  if '0' ≤ c ∧ c ≤ '9' then some (c.toNat - 48)
  else if 'a' ≤ c ∧ c ≤ 'f' then some (c.toNat - 87)
  else if 'A' ≤ c ∧ c ≤ 'F' then some (c.toNat - 55)
  else none

/-- Read four hexadecimal digits (the `XXXX` of a `\uXXXX` escape). -/
def parseHex4 : List Char → Option (Nat × List Char)
  | a :: b :: c :: d :: rest =>
    match hexVal a, hexVal b, hexVal c, hexVal d with
    | some x, some y, some z, some w => some (x * 4096 + y * 256 + z * 16 + w, rest)
    | _, _, _, _ => none
  | _ => none

/-- Parse the body of a JSON string after the opening quote, in Python's
strict mode: raw control characters are rejected, the escapes
`\" \\ \/ \b \f \n \r \t \uXXXX` are decoded, and a high surrogate escape
must be completed by a low surrogate escape (the pair is combined into one
scalar). Returns the decoded characters and the input after the closing
quote. -/
def parseStringBody : Nat → List Char → Option (List Char × List Char)
  | 0, _ => none
  | _ + 1, [] => none
  | fuel + 1, c :: rest =>
    if c = '"' then some ([], rest)
    else if c = '\\' then
      match rest with
      | [] => none
      | e :: r2 =>
        if e = '"' then (parseStringBody fuel r2).map (fun p => ('"' :: p.1, p.2))
        else if e = '\\' then (parseStringBody fuel r2).map (fun p => ('\\' :: p.1, p.2))
        else if e = '/' then (parseStringBody fuel r2).map (fun p => ('/' :: p.1, p.2))
        else if e = 'b' then (parseStringBody fuel r2).map (fun p => ('\x08' :: p.1, p.2))
        else if e = 'f' then (parseStringBody fuel r2).map (fun p => ('\x0c' :: p.1, p.2))
        else if e = 'n' then (parseStringBody fuel r2).map (fun p => ('\n' :: p.1, p.2))
        else if e = 'r' then (parseStringBody fuel r2).map (fun p => ('\r' :: p.1, p.2))
        else if e = 't' then (parseStringBody fuel r2).map (fun p => ('\t' :: p.1, p.2))
        else if e = 'u' then
          match parseHex4 r2 with
          | none => none
          | some (n, r3) =>
            if 0xD800 ≤ n ∧ n ≤ 0xDBFF then
              match r3 with
              | '\\' :: 'u' :: r4 =>
                match parseHex4 r4 with
                | some (m, r5) =>
                  if 0xDC00 ≤ m ∧ m ≤ 0xDFFF then
                    (parseStringBody fuel r5).map
                      (fun p => (Char.ofNat (0x10000 + (n - 0xD800) * 0x400 + (m - 0xDC00)) :: p.1, p.2))
                  else none
                | none => none
              | _ => none
            else if 0xDC00 ≤ n ∧ n ≤ 0xDFFF then none
            else (parseStringBody fuel r3).map (fun p => (Char.ofNat n :: p.1, p.2))
        else none
    else if c.toNat < 0x20 then none
    else (parseStringBody fuel rest).map (fun p => (c :: p.1, p.2))

/-- Fractional and exponent tail of a JSON number, following the regular
expression `(\.\d+)?([eE][-+]?\d+)?` of Python's `json.decoder`: a part
that cannot be completed is not consumed at all. Returns the consumed
characters and the remaining input. -/
def numTail (cs : List Char) : List Char × List Char :=
  let fracStep : List Char × List Char :=
    match cs with
    | '.' :: r =>
      match r.span Char.isDigit with
      | (d :: ds, r2) => ('.' :: d :: ds, r2)
      | ([], _) => ([], cs)
    | _ => ([], cs)
  let cs1 := fracStep.2
  let expStep : List Char × List Char :=
    match cs1 with
    | e :: r =>
      if e = 'e' ∨ e = 'E' then
        let signStep : List Char × List Char :=
          match r with
          | s :: r1 => if s = '+' ∨ s = '-' then ([s], r1) else ([], s :: r1)
          | [] => ([], [])
        match signStep.2.span Char.isDigit with
        | (d :: ds, r2) => (e :: (signStep.1 ++ d :: ds), r2)
        | ([], _) => ([], cs1)
      else ([], cs1)
    | [] => ([], cs1)
  (fracStep.1 ++ expStep.1, expStep.2)

/-- Parse a JSON number per the `json.decoder` grammar
`-?(0|[1-9]\d*)(\.\d+)?([eE][-+]?\d+)?`, keeping the matched lexeme. -/
def parseNumber (cs : List Char) : Option (Json × List Char) :=
  let signStep : List Char × List Char :=
    match cs with
    | '-' :: r => (['-'], r)
    | _ => ([], cs)
  match signStep.2 with
  | [] => none
  | c :: rest =>
    if c = '0' then
      let t := numTail rest
      some (.num (String.mk (signStep.1 ++ '0' :: t.1)), t.2)
    else if c.isDigit then
      let ds := rest.span Char.isDigit
      let t := numTail ds.2
      some (.num (String.mk (signStep.1 ++ c :: (ds.1 ++ t.1))), t.2)
    else none

/-- Bundle of the mutually recursive parsing entry points at one fuel
level: a JSON value, the tail of an array after its first element, and
the tail of an object after its first member. -/
structure JParsers where
  val : List Char → Option (Json × List Char)
  arrTail : List Char → Option (List Json × List Char)
  objTail : List Char → Option (List (String × Json) × List Char)

/-- Parse one `"key": value` object member, the value at the previous fuel
level. -/
def parseMemberWith (p : JParsers) (cs : List Char) : Option ((String × Json) × List Char) :=
  match cs with
  | '"' :: rest =>
    match parseStringBody (rest.length + 1) rest with
    | some (key, r1) =>
      match skipWs r1 with
      | ':' :: r2 =>
        match p.val (skipWs r2) with
        | some (v, r3) => some ((String.mk key, v), r3)
        | none => none
      | _ => none
    | none => none
  | _ => none

/-- Exhausted-fuel parsers: fail on every input. -/
def jZero : JParsers where
  val _ := none
  arrTail _ := none
  objTail _ := none

/-- One fuel level of the JSON grammar accepted by Python `json.loads`
(which also admits the constants `NaN`, `Infinity` and `-Infinity`). -/
def jStep (p : JParsers) : JParsers where
  val cs :=
    match cs with
    | [] => none
    | '\x7b' :: rest =>
      match skipWs rest with
      | '\x7d' :: r2 => some (.obj [], r2)
      | r =>
        match parseMemberWith p r with
        | some (kv, r2) =>
          match p.objTail (skipWs r2) with
          | some (kvs, r3) => some (.obj (kv :: kvs), r3)
          | none => none
        | none => none
    | '[' :: rest =>
      match skipWs rest with
      | ']' :: r2 => some (.arr [], r2)
      | r =>
        match p.val r with
        | some (v, r2) =>
          match p.arrTail (skipWs r2) with
          | some (vs, r3) => some (.arr (v :: vs), r3)
          | none => none
        | none => none
    | '"' :: rest =>
      match parseStringBody (rest.length + 1) rest with
      | some (chars, r2) => some (.str (String.mk chars), r2)
      | none => none
    | 't' :: rest =>
      if rest.take 3 = ['r', 'u', 'e'] then some (.bool true, rest.drop 3) else none
    | 'f' :: rest =>
      if rest.take 4 = ['a', 'l', 's', 'e'] then some (.bool false, rest.drop 4) else none
    | 'n' :: rest =>
      if rest.take 3 = ['u', 'l', 'l'] then some (.null, rest.drop 3) else none
    | 'N' :: rest =>
      if rest.take 2 = ['a', 'N'] then some (.num "NaN", rest.drop 2) else none
    | 'I' :: rest =>
      if rest.take 7 = ['n', 'f', 'i', 'n', 'i', 't', 'y'] then
        some (.num "Infinity", rest.drop 7)
      else none
    | c :: rest =>
      if c = '-' then
        if rest.take 8 = ['I', 'n', 'f', 'i', 'n', 'i', 't', 'y'] then
          some (.num "-Infinity", rest.drop 8)
        else parseNumber (c :: rest)
      else if c.isDigit then parseNumber (c :: rest)
      else none
  arrTail cs :=
    match cs with
    | ']' :: r => some ([], r)
    | ',' :: r =>
      match p.val (skipWs r) with
      | some (v, r2) =>
        match p.arrTail (skipWs r2) with
        | some (vs, r3) => some (v :: vs, r3)
        | none => none
      | none => none
    | _ => none
  objTail cs :=
    match cs with
    | '\x7d' :: r => some ([], r)
    | ',' :: r =>
      match parseMemberWith p (skipWs r) with
      | some (kv, r2) =>
        match p.objTail (skipWs r2) with
        | some (kvs, r3) => some (kv :: kvs, r3)
        | none => none
      | none => none
    | _ => none

/-- Parsers with the given amount of fuel. -/
def jParsers : Nat → JParsers
  | 0 => jZero
  | n + 1 => jStep (jParsers n)

/-- Model of Python `json.loads`: skip leading whitespace, parse one JSON
value, skip trailing whitespace, and require the input to be exhausted
(otherwise Python raises `JSONDecodeError`, modelled as `none`). -/
def jsonLoads (s : String) : Option Json :=
  match (jParsers (s.length + 1)).val (skipWs s.data) with
  | some (v, rest) => if skipWs rest = [] then some v else none
  | none => none

/-! ### Reading the log file (model of `open(log_file).readlines()`) -/

/-- Universal-newline translation performed by Python text-mode reads:
`\r\n` and bare `\r` become `\n` before any line splitting. -/
def univNewlines : List Char → List Char
  | [] => []
  | '\r' :: '\n' :: cs => '\n' :: univNewlines cs
  | '\r' :: cs => '\n' :: univNewlines cs
  | c :: cs => c :: univNewlines cs

/-- Split translated text into lines, keeping each terminating `\n`; a
final unterminated fragment forms a last line of its own. The accumulator
holds the current line's characters in reverse. -/
def splitLinesKeep (acc : List Char) : List Char → List String
  | [] => if acc = [] then [] else [String.mk acc.reverse]
  | c :: cs =>
    if c = '\n' then String.mk ('\n' :: acc).reverse :: splitLinesKeep [] cs
    else splitLinesKeep (c :: acc) cs

/-- Model of `open(log_file).readlines()` on file content `s`. -/
def pyReadlines (s : String) : List String :=
  splitLinesKeep [] (univNewlines s.data)

/-! ### The database generator (`gen_compdb.py`) -/

/-- Compilation database entry, as built by `gen_compdb.py` lines 19-23. -/
structure Entry where
  directory : String
  arguments : List String
  file : String
deriving DecidableEq, Repr

/-- Unhandled Python faults the generator can raise on one line:
`json.JSONDecodeError`, `KeyError` (with the missing key), and the
`TypeError` / `AttributeError` family from operating on a value of an
unexpected shape. -/
inductive Fault where
  | parse : Fault
  | key (k : String) : Fault
  | typeErr : Fault
deriving DecidableEq, Repr

/-- Outcome of one successfully processed log line: a database entry, or
a `warning no src` diagnostic printed to standard output. -/
inductive LineOut where
  | entry (e : Entry) : LineOut
  | warn (w : String) : LineOut
deriving DecidableEq, Repr

/-- Coerce the elements of a parsed `args` array to Python strings;
`none` where `a.endswith(...)` would raise on a non-string element. -/
def asStrings : List Json → Option (List String)
  | [] => some []
  | .str s :: rest => (asStrings rest).map (fun ss => s :: ss)
  | _ => none

/-- Model of the loop body of `gen_compdb.py` lines 10-25 on one raw line
`l` (which still carries its `\n` terminator): parse the line, read
`it[\x27wd\x27]` and `it[\x27args\x27]`, prefix `/usr/bin/gcc`, collect
`os.path.join(wd, a)` for every argument with a recognized extension, and
either append the entry (whose `file` is `srcs[-1]`) or print the
warning. Faults mirror the Python exceptions, in evaluation order. -/
def lineStep (l : String) : Except Fault LineOut :=
  match jsonLoads l with
  | none => .error .parse
  | some (.obj kvs) =>
    match dictGet kvs "wd", dictGet kvs "args" with
    | none, _ => .error (.key "wd")
    | some _, none => .error (.key "args")
    | some wdJ, some (.arr items) =>
      match asStrings items with
      | none => .error .typeErr
      | some itemStrs =>
        match ("/usr/bin/gcc" :: itemStrs).filter recognizedSrc with
        | [] => .ok (.warn ("warning no src " ++ l))
        | m :: ms =>
          match wdJ with
          | .str wd =>
            .ok (.entry ⟨wd, "/usr/bin/gcc" :: itemStrs,
              (osPathJoin wd m :: ms.map (osPathJoin wd)).getLast (List.cons_ne_nil _ _)⟩)
          | _ => .error .typeErr
    | some _, some _ => .error .typeErr
  | some _ => .error .typeErr

/-- Sequential processing of all log lines; the first fault aborts the
run. On success, database entries and warnings are each returned in line
order. -/
def stepAll : List String → Except Fault (List Entry × List String)
  | [] => .ok ([], [])
  | l :: ls =>
    match lineStep l with
    | .error e => .error e
    | .ok out =>
      match stepAll ls with
      | .error e => .error e
      | .ok (db, ws) =>
        match out with
        | .entry en => .ok (en :: db, ws)
        | .warn w => .ok (db, w :: ws)

/-- The generator's pure core: from the log file's content to the entry
list and the printed warnings, or the aborting fault. -/
def genCompdb (content : String) : Except Fault (List Entry × List String) :=
  stepAll (pyReadlines content)

/-! ### Serialization (model of `json.dumps`, default options) -/

/-- Hexadecimal digit character of `n % 16`, lower case as emitted by
`json.dumps`: `0`-`9` then `a`-`f`. -/
def hexDigit (n : Nat) : Char :=
  if n % 16 < 10 then Char.ofNat (48 + n % 16) else Char.ofNat (87 + n % 16)

/-- Six-character `\uXXXX` escape for code unit `n < 0x10000`. -/
def uEscape (n : Nat) : List Char :=
  ['\\', 'u', hexDigit (n / 4096), hexDigit (n / 256), hexDigit (n / 16), hexDigit n]

/-- Escape of one character inside a `json.dumps` string literal with the
default `ensure_ascii=True`: the two-character escapes for quote,
backslash and the common control characters, `\u00XX` for the remaining
control characters, printable ASCII verbatim, and `\uXXXX` (a surrogate
pair beyond the basic plane) for everything non-ASCII. -/
def escChar (c : Char) : List Char :=
  if c = '"' then ['\\', '"']
  else if c = '\\' then ['\\', '\\']
  else if c = '\n' then ['\\', 'n']
  else if c = '\r' then ['\\', 'r']
  else if c = '\t' then ['\\', 't']
  else if c = '\x08' then ['\\', 'b']
  else if c = '\x0c' then ['\\', 'f']
  else if c.toNat < 0x20 then uEscape c.toNat
  else if c.toNat ≤ 0x7e then [c]
  else if c.toNat < 0x10000 then uEscape c.toNat
  else
    uEscape (0xD800 + (c.toNat - 0x10000) / 0x400) ++
      uEscape (0xDC00 + (c.toNat - 0x10000) % 0x400)

/-- Escaped body of a serialized string. -/
def jsonEscapeChars (s : List Char) : List Char :=
  (s.map escChar).flatten

/-- Serialization of a Python `str` by `json.dumps`. -/
def dumpsStr (s : String) : String :=
  "\"" ++ String.mk (jsonEscapeChars s.data) ++ "\""

/-- Interleave a separator between serialized items, as `json.dumps` does
with its default `, ` item separator. -/
def joinSep (sep : String) : List String → String
  | [] => ""
  | [x] => x
  | x :: y :: t => x ++ sep ++ joinSep sep (y :: t)

/-- Serialization of a Python list of `str` by `json.dumps`. -/
def dumpsStrList (xs : List String) : String :=
  "[" ++ joinSep ", " (xs.map dumpsStr) ++ "]"

/-- Serialization of one invocation record
`json.dumps(\x7b\x27wd\x27: wd, \x27args\x27: args\x7d)` as written by
`cc.py`: insertion order keeps `wd` before `args`. -/
def dumpsRecord (wd : String) (args : List String) : String :=
  "\x7b\"wd\": " ++ dumpsStr wd ++ ", \"args\": " ++ dumpsStrList args ++ "\x7d"

/-- Serialization of one database entry dict as built by `gen_compdb.py`:
insertion order keeps `directory`, `arguments`, `file`. -/
def dumpsEntry (e : Entry) : String :=
  "\x7b\"directory\": " ++ dumpsStr e.directory ++ ", \"arguments\": " ++
    dumpsStrList e.arguments ++ ", \"file\": " ++ dumpsStr e.file ++ "\x7d"

/-- Serialization of the whole database list, `json.dumps(db)`. -/
def dumpsDb (db : List Entry) : String :=
  "[" ++ joinSep ", " (db.map dumpsEntry) ++ "]"

/-- The generator's output bytes: the serialized database, or the fault
that aborted the run before anything was written. -/
def genOutput (content : String) : Except Fault String :=
  match genCompdb content with
  | .ok r => .ok (dumpsDb r.1)
  | .error e => .error e

/-- One full generator run as a transformer of the destination file
`compile_commands.json`: the file is opened for writing only after the
whole scan succeeded (`gen_compdb.py` lines 26-27), so on a fault the
previous content (`none` = the file does not exist) is left untouched. -/
def runGenerator (content : String) (oldDb : Option String) : Option String :=
  match genOutput content with
  | .ok out => some out
  | .error _ => oldDb

/-! ### The wrapper (`cc.py`) -/

/-- Observable effects of one wrapper invocation, in program order. -/
inductive WEffect where
  | append (file : String) (s : String) : WEffect
  | closeLog (file : String) : WEffect
  | execve (prog : String) (argv : List String) : WEffect
deriving DecidableEq, Repr

/-- Log destination: `os.getenv(\x27CC_HOOK_COMPDB_LOG_FILE\x27)` with the
default `cc_hook.txt`. -/
def ccLogFile (env : Option String) : String :=
  env.getD "cc_hook.txt"

/-- Effect trace of `cc.py` given the environment variable, the current
working directory and `sys.argv[1:]`: append the serialized record, append
the newline, leave the `with` block (closing the log), then replace the
process image with `/usr/bin/gcc` passing the original arguments through. -/
def ccRun (env : Option String) (wd : String) (argv : List String) : List WEffect :=
  [ .append (ccLogFile env) (dumpsRecord wd argv),
    .append (ccLogFile env) "\n",
    .closeLog (ccLogFile env),
    .execve "/usr/bin/gcc" ("/usr/bin/gcc" :: argv) ]

/-- Total content appended to file `f` by an effect trace. -/
def logContent (f : String) : List WEffect → String
  | [] => ""
  | .append g s :: es => if g = f then s ++ logContent f es else logContent f es
  | _ :: es => logContent f es

/-! ### Helper lemmas -/

/-- Decoding a parsed JSON array whose items are all strings succeeds and
returns those strings. -/
theorem asStrings_map_str (xs : List String) : asStrings (xs.map Json.str) = some xs := by
  induction xs with
  | nil => rfl
  | cons x t ih => simp [asStrings, ih]

/-- The last element of a nonempty mapped list is the image of the last
element. -/
theorem getLast_cons_map (f : String → String) (m : String) (ms : List String) :
    (f m :: ms.map f).getLast (List.cons_ne_nil _ _) =
      f ((m :: ms).getLast (List.cons_ne_nil _ _)) := by
  induction ms generalizing m with
  | nil => rfl
  | cons b bs ih => simpa [List.getLast] using ih b

/-- A suffix of the second operand is a suffix of a concatenation. -/
theorem pyEndswith_append (x a ext : String) (h : pyEndswith a ext = true) :
    pyEndswith (x ++ a) ext = true := by
  unfold pyEndswith at h ⊢
  rw [List.isSuffixOf_iff_suffix] at h ⊢
  rw [String.data_append]
  exact h.trans (List.suffix_append x.data a.data)

/-- Joining preserves a recognized extension of the second component. -/
theorem recognizedSrc_osPathJoin (wd a : String) (h : recognizedSrc a = true) :
    recognizedSrc (osPathJoin wd a) = true := by
  have happ : ∀ x : String, recognizedSrc (x ++ a) = true := by
    intro x
    unfold recognizedSrc at h ⊢
    rw [Bool.or_eq_true, Bool.or_eq_true] at h ⊢
    rcases h with (h | h) | h
    · exact Or.inl (Or.inl (pyEndswith_append x a _ h))
    · exact Or.inl (Or.inr (pyEndswith_append x a _ h))
    · exact Or.inr (pyEndswith_append x a _ h)
  unfold osPathJoin
  split
  · exact h
  · split
    · exact happ wd
    · exact happ (wd ++ "/")

/-- An absolute second component makes `os.path.join` discard the first. -/
theorem osPathJoin_abs (p b : String) (h : pyStartswith b "/" = true) :
    osPathJoin p b = b := by
  unfold osPathJoin
  rw [h]
  rfl

/-- Shape of a well-formed invocation record line: it parses to a JSON
object whose `wd` member is the string `wd` and whose `args` member is the
array of the strings `args`. -/
def DecodesTo (l wd : String) (args : List String) : Prop :=
  ∃ kvs, jsonLoads l = some (.obj kvs) ∧ dictGet kvs "wd" = some (.str wd) ∧
    dictGet kvs "args" = some (.arr (args.map Json.str))

/-- A decodable record line with at least one recognized argument in the
prefixed vector produces exactly the database entry of the source loop,
whose `file` joins `wd` with the last recognized argument. -/
theorem lineStep_entry (l wd : String) (args : List String) (m : String) (ms : List String)
    (hd : DecodesTo l wd args)
    (hf : ("/usr/bin/gcc" :: args).filter recognizedSrc = m :: ms) :
    lineStep l = .ok (.entry ⟨wd, "/usr/bin/gcc" :: args,
      (osPathJoin wd m :: ms.map (osPathJoin wd)).getLast (List.cons_ne_nil _ _)⟩) := by
  obtain ⟨kvs, h1, h2, h3⟩ := hd
  unfold lineStep
  rw [h1]
  simp only [h2, h3, asStrings_map_str, hf]

/-- A decodable record line with no recognized argument in the prefixed
vector produces exactly the warning of the source loop. -/
theorem lineStep_warn (l wd : String) (args : List String)
    (hd : DecodesTo l wd args)
    (hf : ("/usr/bin/gcc" :: args).filter recognizedSrc = []) :
    lineStep l = .ok (.warn ("warning no src " ++ l)) := by
  obtain ⟨kvs, h1, h2, h3⟩ := hd
  unfold lineStep
  rw [h1]
  simp only [h2, h3, asStrings_map_str, hf]

/-- Processing distributes over concatenation of line lists when both
halves succeed: entries and warnings are concatenated in order. -/
theorem stepAll_append (ls1 ls2 : List String) (r1 r2 : List Entry × List String)
    (h1 : stepAll ls1 = .ok r1) (h2 : stepAll ls2 = .ok r2) :
    stepAll (ls1 ++ ls2) = .ok (r1.1 ++ r2.1, r1.2 ++ r2.2) := by
  induction ls1 generalizing r1 with
  | nil =>
    simp only [stepAll] at h1
    cases h1
    simpa using h2
  | cons l t ih =>
    rw [List.cons_append]
    simp only [stepAll] at h1 ⊢
    rcases ho : lineStep l with e | out
    · rw [ho] at h1
      cases h1
    · rw [ho] at h1
      rcases ht : stepAll t with e | ⟨db, ws⟩
      · rw [ht] at h1
        cases h1
      · rw [ht] at h1
        rw [ih (db, ws) ht]
        cases out with
        | entry en => cases h1; rfl
        | warn w => cases h1; rfl

/-- A line that faults makes the whole scan fault. -/
theorem stepAll_error_of_mem (ls : List String) (l : String) (e : Fault)
    (hm : l ∈ ls) (he : lineStep l = .error e) :
    ∃ e2, stepAll ls = .error e2 := by
  induction ls with
  | nil => cases hm
  | cons x t ih =>
    rcases List.mem_cons.mp hm with rfl | hmem
    · exact ⟨e, by simp [stepAll, he]⟩
    · rcases hx : lineStep x with ex | out
      · exact ⟨ex, by simp [stepAll, hx]⟩
      · obtain ⟨e2, ht⟩ := ih hmem
        exact ⟨e2, by simp [stepAll, hx, ht]⟩

/-- A successful entry always carries a file with a recognized extension. -/
theorem lineStep_entry_file (l : String) (en : Entry)
    (h : lineStep l = .ok (.entry en)) : recognizedSrc en.file = true := by
  unfold lineStep at h
  repeat' split at h
  all_goals try (cases h ; done)
  all_goals cases h
  rename_i itemStrs hstr x m ms hfil wdJ wd hwd
  have hall : ∀ y ∈ m :: ms, recognizedSrc y = true := by
    intro y hy
    have hy2 : y ∈ List.filter recognizedSrc ("/usr/bin/gcc" :: itemStrs) := by
      rw [hfil]
      exact hy
    exact (List.mem_filter.mp hy2).2
  simpa [getLast_cons_map] using
    recognizedSrc_osPathJoin wd _ (hall _ (List.getLast_mem _))

/-- Hexadecimal digit characters are never a linefeed. -/
theorem hexDigit_ne_nl (n : Nat) : hexDigit n ≠ '\n' := by
  unfold hexDigit
  have h : n % 16 < 16 := Nat.mod_lt _ (by norm_num)
  set m := n % 16 with hm
  interval_cases m <;> decide

/-- A `\uXXXX` escape contains no linefeed. -/
theorem nl_not_mem_uEscape (n : Nat) : '\n' ∉ uEscape n := by
  intro hmem
  simp only [uEscape, List.mem_cons, List.not_mem_nil, or_false] at hmem
  rcases hmem with h | h | h | h | h | h <;>
    first
      | exact absurd h (by decide)
      | exact hexDigit_ne_nl _ h.symm

/-- The escape of any character contains no linefeed. -/
theorem nl_not_mem_escChar (c : Char) : '\n' ∉ escChar c := by
  unfold escChar
  repeat' split
  all_goals first
    | decide
    | exact nl_not_mem_uEscape _
    | (intro hm
       rcases List.mem_append.mp hm with hm | hm <;> exact nl_not_mem_uEscape _ hm)
    | (intro hm
       rw [List.mem_singleton] at hm
       subst hm
       simp_all)

/-- An escaped string body contains no linefeed. -/
theorem nl_not_mem_jsonEscapeChars (s : List Char) : '\n' ∉ jsonEscapeChars s := by
  intro hm
  unfold jsonEscapeChars at hm
  rcases List.mem_flatten.mp hm with ⟨l, hl, hc⟩
  rcases List.mem_map.mp hl with ⟨c, _, rfl⟩
  exact nl_not_mem_escChar c hc

/-- Linefeed-freeness is preserved by string concatenation. -/
theorem nl_not_mem_strAppend (a b : String) (ha : '\n' ∉ a.data) (hb : '\n' ∉ b.data) :
    '\n' ∉ (a ++ b).data := by
  rw [String.data_append]
  intro hm
  rcases List.mem_append.mp hm with hm | hm
  · exact ha hm
  · exact hb hm

/-- A serialized string contains no linefeed. -/
theorem nl_not_mem_dumpsStr (s : String) : '\n' ∉ (dumpsStr s).data := by
  unfold dumpsStr
  refine nl_not_mem_strAppend _ _ (nl_not_mem_strAppend _ _ (by decide) ?_) (by decide)
  exact nl_not_mem_jsonEscapeChars s.data

/-- Joining linefeed-free pieces with `, ` stays linefeed-free. -/
theorem nl_not_mem_joinSep (xs : List String) (h : ∀ x ∈ xs, '\n' ∉ x.data) :
    '\n' ∉ (joinSep ", " xs).data := by
  induction xs with
  | nil => decide
  | cons x t ih =>
    cases t with
    | nil => exact h x (by simp)
    | cons y u =>
      unfold joinSep
      refine nl_not_mem_strAppend _ _ (nl_not_mem_strAppend _ _ (h x (by simp)) (by decide)) ?_
      exact ih (fun z hz => h z (List.mem_cons_of_mem x hz))

/-- A serialized string list contains no linefeed. -/
theorem nl_not_mem_dumpsStrList (xs : List String) : '\n' ∉ (dumpsStrList xs).data := by
  unfold dumpsStrList
  refine nl_not_mem_strAppend _ _ (nl_not_mem_strAppend _ _ (by decide) ?_) (by decide)
  refine nl_not_mem_joinSep (xs.map dumpsStr) ?_
  intro x hx
  rcases List.mem_map.mp hx with ⟨s, _, rfl⟩
  exact nl_not_mem_dumpsStr s

/-- The serialized invocation record is a single line: no linefeed occurs
in it. -/
theorem nl_not_mem_dumpsRecord (wd : String) (args : List String) :
    '\n' ∉ (dumpsRecord wd args).data := by
  unfold dumpsRecord
  exact nl_not_mem_strAppend _ _
    (nl_not_mem_strAppend _ _
      (nl_not_mem_strAppend _ _
        (nl_not_mem_strAppend _ _ (by decide) (nl_not_mem_dumpsStr wd))
        (by decide))
      (nl_not_mem_dumpsStrList args))
    (by decide)

/-- Appending the empty string is the identity. -/
theorem strAppendEmpty (s : String) : s ++ "" = s := by
  cases s with
  | mk l => exact congrArg String.mk (List.append_nil l)

/-- Everything the wrapper run appends to its log file is the serialized
record followed by one newline. -/
theorem logContent_ccRun (env : Option String) (wd : String) (argv : List String) :
    logContent (ccLogFile env) (ccRun env wd argv) = dumpsRecord wd argv ++ "\n" := by
  simp [logContent, ccRun, strAppendEmpty]

/-! ### Claim theorems -/

/-- C4: source-file recognition is suffix-based, exact and case-sensitive
over the extensions `.c`, `.cc`, `.cpp` only: an argument is recognized if
and only if it ends in one of those three suffixes; in particular
`foo.cpp` is recognized while `foo.cpp.bak`, `foo.cxx` and `foo.C` are
not. -/
theorem claim_C4 :
    (∀ a : String, recognizedSrc a = true ↔
      (".c".data <:+ a.data ∨ ".cc".data <:+ a.data ∨ ".cpp".data <:+ a.data)) ∧
    recognizedSrc "foo.cpp" = true ∧ recognizedSrc "foo.cpp.bak" = false ∧
    recognizedSrc "foo.cxx" = false ∧ recognizedSrc "foo.C" = false := by
  refine ⟨fun a => ?_, by decide, by decide, by decide, by decide⟩
  unfold recognizedSrc pyEndswith
  simp [List.isSuffixOf_iff_suffix, Bool.or_eq_true, or_assoc]

/-- C5: one wrapper invocation appends to the log file exactly one line
equal to the JSON object with keys `wd` then `args` in that order,
terminated by a single newline (the serialized record itself contains no
newline), and the log is closed (trace position 2) before the process
image is replaced by the compiler (trace position 3). -/
theorem claim_C5 (env : Option String) (wd : String) (argv : List String) :
    logContent (ccLogFile env) (ccRun env wd argv) = dumpsRecord wd argv ++ "\n" ∧
    '\n' ∉ (dumpsRecord wd argv).data ∧
    dumpsRecord wd argv =
      "\x7b\"wd\": " ++ dumpsStr wd ++ ", \"args\": " ++ dumpsStrList argv ++ "\x7d" ∧
    (ccRun env wd argv)[2]? = some (.closeLog (ccLogFile env)) ∧
    (ccRun env wd argv)[3]? = some (.execve "/usr/bin/gcc" ("/usr/bin/gcc" :: argv)) :=
  ⟨logContent_ccRun env wd argv, nl_not_mem_dumpsRecord wd argv, rfl, rfl, rfl⟩

/-- C8: generation is idempotent and deterministic: a second run on the
same unchanged log content leaves the destination file exactly as the
first run left it, and whenever generation succeeds the written bytes do
not depend on the destination's previous content. -/
theorem claim_C8 (content : String) (old old1 old2 : Option String) :
    runGenerator content (runGenerator content old) = runGenerator content old ∧
    (∀ out, genOutput content = .ok out →
      runGenerator content old1 = runGenerator content old2) := by
  constructor
  · unfold runGenerator
    rcases hg : genOutput content with e | out <;> rfl
  · intro out hout
    unfold runGenerator
    rw [hout]

/-- C8 witness: concrete instantiation on the empty log. -/
theorem claim_C8_witness :
    (runGenerator "" (runGenerator "" none) = runGenerator "" none) ∧
      runGenerator "" none = runGenerator "" (some "junk") :=
  ⟨(claim_C8 "" none none (some "junk")).1,
    (claim_C8 "" none none (some "junk")).2 "[]" rfl⟩

/-- C10: on an empty log file the generator succeeds with no entries and
no warnings, and writes exactly the two-character array `[]`. -/
theorem claim_C10 :
    genCompdb "" = .ok ([], []) ∧ genOutput "" = .ok "[]" ∧
      ("[]" : String).length = 2 :=
  ⟨rfl, rfl, rfl⟩

/-- Malformed log line in the sense of the specification: invalid JSON, or
a JSON object lacking the `wd` or the `args` key. -/
def MalformedLine (l : String) : Prop :=
  jsonLoads l = none ∨
    ∃ kvs, jsonLoads l = some (.obj kvs) ∧
      (dictGet kvs "wd" = none ∨ dictGet kvs "args" = none)

/-- A malformed line faults. -/
theorem lineStep_malformed (l : String) (hm : MalformedLine l) :
    ∃ e, lineStep l = .error e := by
  rcases hm with hp | ⟨kvs, hobj, hk⟩
  · exact ⟨.parse, by unfold lineStep; rw [hp]⟩
  · rcases hwd : dictGet kvs "wd" with _ | wdJ
    · exact ⟨.key "wd", by unfold lineStep; rw [hobj]; simp only [hwd]⟩
    · rcases hk with hk | hk
      · exact absurd hwd (by rw [hk]; simp)
      · exact ⟨.key "args", by unfold lineStep; rw [hobj]; simp only [hwd, hk]⟩

/-- C2: a log containing a malformed line (invalid JSON, or an object
missing `wd` or `args`) makes the generator abort with an unrecovered
fault, and the destination file is left untouched: entries accumulated
before the fault are discarded because the destination is written only
after every line has been processed. -/
theorem claim_C2 (content : String) (oldDb : Option String)
    (h : ∃ l ∈ pyReadlines content, MalformedLine l) :
    (∃ e, genCompdb content = .error e) ∧ runGenerator content oldDb = oldDb := by
  obtain ⟨l, hl, hm⟩ := h
  obtain ⟨e, he⟩ := lineStep_malformed l hm
  obtain ⟨e2, he2⟩ := stepAll_error_of_mem (pyReadlines content) l e hl he
  refine ⟨⟨e2, he2⟩, ?_⟩
  unfold runGenerator genOutput
  rw [show genCompdb content = stepAll (pyReadlines content) from rfl, he2]

/-- C2 witness: a non-JSON line aborts the run and leaves the previous
database bytes in place. -/
theorem claim_C2_witness :
    (∃ e, genCompdb "oops\n" = .error e) ∧
      runGenerator "oops\n" (some "prev") = some "prev" :=
  claim_C2 "oops\n" (some "prev") ⟨"oops\n", by decide, Or.inl rfl⟩

/-- C3: a decodable log line whose prefixed argument vector has no
recognized source argument produces zero entries, exactly one warning of
the form `warning no src <raw line>`, and does not abort the run. -/
theorem claim_C3 (l wd : String) (args : List String) (ls : List String)
    (db : List Entry) (ws : List String)
    (hd : DecodesTo l wd args)
    (hf : ("/usr/bin/gcc" :: args).filter recognizedSrc = [])
    (hrest : stepAll ls = .ok (db, ws)) :
    stepAll (l :: ls) = .ok (db, ("warning no src " ++ l) :: ws) := by
  simp only [stepAll, lineStep_warn l wd args hd hf, hrest]

/-- C3 witness: the `--version` scenario line warns and contributes no
entry. -/
theorem claim_C3_witness :
    stepAll ["\x7b\"wd\": \"/tmp\", \"args\": [\"--version\"]\x7d\n"] =
      .ok ([], ["warning no src \x7b\"wd\": \"/tmp\", \"args\": [\"--version\"]\x7d\n"]) :=
  claim_C3 "\x7b\"wd\": \"/tmp\", \"args\": [\"--version\"]\x7d\n" "/tmp" ["--version"]
    [] [] []
    ⟨[("wd", .str "/tmp"), ("args", .arr [.str "--version"])], rfl, rfl, rfl⟩
    rfl rfl

/-- C6 (amended): the generator parses each line of the log independently
as one JSON object — processing a concatenation of line lists processes
each part on its own and concatenates entries and warnings — but an empty
line is not skipped: it raises a JSON parse fault that aborts the run. -/
theorem claim_C6 :
    (∀ ls1 ls2 r1 r2, stepAll ls1 = .ok r1 → stepAll ls2 = .ok r2 →
        stepAll (ls1 ++ ls2) = .ok (r1.1 ++ r2.1, r1.2 ++ r2.2)) ∧
      genCompdb "\n" = .error .parse :=
  ⟨fun ls1 ls2 r1 r2 => stepAll_append ls1 ls2 r1 r2, rfl⟩

/-- C6 counterexample: a log consisting of one empty line does not
contribute nothing — the generator raises a parse fault. -/
theorem claim_C6_cex : genCompdb "\n" = .error .parse := rfl

/-- C6 witness: concrete split of a two-line log into independent halves. -/
theorem claim_C6_witness :
    stepAll (["\x7b\"wd\": \"/a\", \"args\": [\"x.c\"]\x7d\n"] ++
        ["\x7b\"wd\": \"/b\", \"args\": []\x7d\n"]) =
      .ok (([⟨"/a", ["/usr/bin/gcc", "x.c"], "/a/x.c"⟩] : List Entry) ++ [],
        ([] : List String) ++ ["warning no src \x7b\"wd\": \"/b\", \"args\": []\x7d\n"]) ∧
      genCompdb "\n" = .error .parse :=
  ⟨claim_C6.1 ["\x7b\"wd\": \"/a\", \"args\": [\"x.c\"]\x7d\n"]
      ["\x7b\"wd\": \"/b\", \"args\": []\x7d\n"]
      ([⟨"/a", ["/usr/bin/gcc", "x.c"], "/a/x.c"⟩], [])
      ([], ["warning no src \x7b\"wd\": \"/b\", \"args\": []\x7d\n"]) rfl rfl,
    claim_C6.2⟩

/-- Specification-side description of the entry a record should produce:
`directory` is the record's working directory, `arguments` is the
`/usr/bin/gcc`-prefixed argument vector, and `file` joins the working
directory with the last recognized-extension argument of that vector. -/
def recEntry (r : String × List String) : Entry :=
  ⟨r.1, "/usr/bin/gcc" :: r.2,
    osPathJoin r.1 ((("/usr/bin/gcc" :: r.2).filter recognizedSrc).getLastD "")⟩

/-- On a nonempty list, `getLastD` is `getLast`. -/
theorem getLastD_cons_eq_getLast (m : String) (ms : List String) (d : String) :
    (m :: ms).getLastD d = (m :: ms).getLast (List.cons_ne_nil m ms) := by
  induction ms generalizing m with
  | nil => rfl
  | cons b bs ih => simp [List.getLastD, List.getLast, ih b]

/-- Lines that all decode to records with at least one recognized argument
produce exactly one entry per line, in order, and no warnings. -/
theorem stepAll_entries (ls : List String) (rs : List (String × List String))
    (hdec : List.Forall₂ (fun l r => DecodesTo l r.1 r.2) ls rs) :
    (∀ r ∈ rs, ("/usr/bin/gcc" :: r.2).filter recognizedSrc ≠ []) →
      stepAll ls = .ok (rs.map recEntry, []) := by
  induction hdec with
  | nil => intro _; rfl
  | cons hlr htail ih =>
    intro hs
    rename_i l r ls2 rs2
    rcases hfil : ("/usr/bin/gcc" :: r.2).filter recognizedSrc with _ | ⟨m, ms⟩
    · exact absurd hfil (hs r (List.mem_cons_self r rs2))
    · have hstep := lineStep_entry l r.1 r.2 m ms hlr hfil
      have htail2 := ih (fun q hq => hs q (List.mem_cons_of_mem r hq))
      have he : (⟨r.1, "/usr/bin/gcc" :: r.2,
          (osPathJoin r.1 m :: ms.map (osPathJoin r.1)).getLast
            (List.cons_ne_nil _ _)⟩ : Entry) = recEntry r := by
        unfold recEntry
        rw [hfil, getLastD_cons_eq_getLast, getLast_cons_map]
      simp only [stepAll, hstep, htail2, List.map_cons, he]

/-- C1: a log file all of whose lines decode to records with at least one
recognized source argument in the prefixed vector yields exactly one entry
per line (no warnings), each entry having the record's `wd` as
`directory`, the `/usr/bin/gcc`-prefixed arguments, and as `file` the
working directory joined with the last recognized argument of that full
vector. -/
theorem claim_C1 (content : String) (recs : List (String × List String))
    (hdec : List.Forall₂ (fun l r => DecodesTo l r.1 r.2) (pyReadlines content) recs)
    (hsrc : ∀ r ∈ recs, ("/usr/bin/gcc" :: r.2).filter recognizedSrc ≠ []) :
    genCompdb content = .ok (recs.map recEntry, []) ∧
      recs.length = (pyReadlines content).length :=
  ⟨stepAll_entries (pyReadlines content) recs hdec hsrc,
    (List.Forall₂.length_eq hdec).symm⟩

/-- C1 witness: the specification scenario line. -/
theorem claim_C1_witness :
    genCompdb
        "\x7b\"wd\": \"/home/u/proj\", \"args\": [\"-c\", \"main.cpp\", \"-o\", \"main.o\"]\x7d\n" =
      .ok (([("/home/u/proj", ["-c", "main.cpp", "-o", "main.o"])] :
          List (String × List String)).map recEntry, []) ∧
      ([("/home/u/proj", ["-c", "main.cpp", "-o", "main.o"])] :
          List (String × List String)).length =
        (pyReadlines
          "\x7b\"wd\": \"/home/u/proj\", \"args\": [\"-c\", \"main.cpp\", \"-o\", \"main.o\"]\x7d\n").length :=
  claim_C1 _ _
    (List.Forall₂.cons
      ⟨[("wd", .str "/home/u/proj"),
        ("args", .arr [.str "-c", .str "main.cpp", .str "-o", .str "main.o"])],
        rfl, rfl, rfl⟩
      List.Forall₂.nil)
    (by decide)

/-- C7: whenever the generator succeeds, every produced entry's `file`
ends in a recognized source extension, and entries and warnings together
account for the log's lines one-to-one (entries for exactly the records
with a recognized argument, warnings for the rest). -/
theorem claim_C7 (content : String) (db : List Entry) (ws : List String)
    (h : genCompdb content = .ok (db, ws)) :
    (∀ e ∈ db, recognizedSrc e.file = true) ∧
      db.length + ws.length = (pyReadlines content).length := by
  have hstep : stepAll (pyReadlines content) = .ok (db, ws) := h
  clear h
  generalize pyReadlines content = ls at hstep ⊢
  induction ls generalizing db ws with
  | nil =>
    simp only [stepAll] at hstep
    cases hstep
    exact ⟨by simp, rfl⟩
  | cons l t ih =>
    simp only [stepAll] at hstep
    rcases ho : lineStep l with e | out
    · rw [ho] at hstep
      cases hstep
    · rw [ho] at hstep
      rcases ht : stepAll t with e | ⟨db2, ws2⟩
      · rw [ht] at hstep
        cases hstep
      · rw [ht] at hstep
        have ihp := ih db2 ws2 ht
        cases out with
        | entry en =>
          cases hstep
          refine ⟨?_, ?_⟩
          · intro e he
            rcases List.mem_cons.mp he with rfl | he2
            · exact lineStep_entry_file l e ho
            · exact ihp.1 e he2
          · have := ihp.2
            simp only [List.length_cons]
            omega
        | warn w =>
          cases hstep
          refine ⟨ihp.1, ?_⟩
          have := ihp.2
          simp only [List.length_cons]
          omega

/-- C7 witness: the scenario database satisfies the invariant and the
count. -/
theorem claim_C7_witness :
    (∀ e ∈ ([⟨"/home/u/proj", ["/usr/bin/gcc", "-c", "main.cpp", "-o", "main.o"],
        "/home/u/proj/main.cpp"⟩] : List Entry), recognizedSrc e.file = true) ∧
      ([⟨"/home/u/proj", ["/usr/bin/gcc", "-c", "main.cpp", "-o", "main.o"],
        "/home/u/proj/main.cpp"⟩] : List Entry).length + ([] : List String).length =
        (pyReadlines
          "\x7b\"wd\": \"/home/u/proj\", \"args\": [\"-c\", \"main.cpp\", \"-o\", \"main.o\"]\x7d\n").length :=
  claim_C7
    "\x7b\"wd\": \"/home/u/proj\", \"args\": [\"-c\", \"main.cpp\", \"-o\", \"main.o\"]\x7d\n"
    [⟨"/home/u/proj", ["/usr/bin/gcc", "-c", "main.cpp", "-o", "main.o"],
      "/home/u/proj/main.cpp"⟩] [] rfl

/-- C9: when the last recognized source argument of a record is an
absolute path, `os.path.join` discards the working directory, so the
entry's `file` is that argument unchanged. -/
theorem claim_C9 (l wd : String) (args : List String) (m : String) (ms : List String)
    (hd : DecodesTo l wd args)
    (hf : ("/usr/bin/gcc" :: args).filter recognizedSrc = m :: ms)
    (habs : pyStartswith ((m :: ms).getLast (List.cons_ne_nil m ms)) "/" = true) :
    lineStep l = .ok (.entry ⟨wd, "/usr/bin/gcc" :: args,
      (m :: ms).getLast (List.cons_ne_nil m ms)⟩) := by
  have hlast : (osPathJoin wd m :: ms.map (osPathJoin wd)).getLast
      (List.cons_ne_nil _ _) = (m :: ms).getLast (List.cons_ne_nil m ms) := by
    rw [getLast_cons_map]
    exact osPathJoin_abs wd _ habs
  rw [lineStep_entry l wd args m ms hd hf, hlast]

/-- C9 witness: an absolute `/abs/main.c` ignores the working directory
`/home/u`. -/
theorem claim_C9_witness :
    lineStep "\x7b\"wd\": \"/home/u\", \"args\": [\"/abs/main.c\"]\x7d\n" =
      .ok (.entry ⟨"/home/u", ["/usr/bin/gcc", "/abs/main.c"],
        (["/abs/main.c"] : List String).getLast (List.cons_ne_nil _ _)⟩) :=
  claim_C9 "\x7b\"wd\": \"/home/u\", \"args\": [\"/abs/main.c\"]\x7d\n"
    "/home/u" ["/abs/main.c"] "/abs/main.c" []
    ⟨[("wd", .str "/home/u"), ("args", .arr [.str "/abs/main.c"])], rfl, rfl, rfl⟩
    rfl rfl

end Compdb
